import Mathlib

/-!
Verification development for the muse-ai browser-agent core.

The embedding translates the three core components of the source:
  * the text chunker and per-tab snapshot store (src/chunker.ts),
  * the resilient streaming inference client's retry loop (gemini module,
    executeRequest),
  * the agentic orchestration loop of the background service worker.

Page text is modelled as `List Char` (one entry per UTF-16 code unit);
JavaScript numbers that hold non-negative integers are modelled as `Nat`
(with explicit `% 2 ^ 32` where the source relies on 32-bit wrap-around),
JavaScript `-1` sentinel results as `Int`.  Fallible operations return
`Option`/`Except`.  External collaborators (the chrome storage backend, the
fetch API, the page-write side channel, the jsdiff library) are modelled as
explicit parameters or as small faithful models, each marked in its doc
comment.
-/

namespace Muse

-- ════════════════════════════════════════════════════════════
-- CHUNKER (src/chunker.ts)
-- ════════════════════════════════════════════════════════════

/-- chunker.ts constant DEFAULT_CHUNK_SIZE. -/
def DEFAULT_CHUNK_SIZE : Nat := 2000

/-- chunker.ts constant DEFAULT_OVERLAP. -/
def DEFAULT_OVERLAP : Nat := 200

/-- chunker.ts constant MAX_CHUNKS. -/
def MAX_CHUNKS : Nat := 100

/-- chunker.ts constant TTL_MS (30 minutes). -/
def TTL_MS : Nat := 30 * 60 * 1000

/-- JavaScript `text.slice(start, end)` on a code-unit list
(for `0 ≤ start`; a slice with `end ≤ start` is empty, matching JS). -/
def sliceL (l : List Char) (a b : Nat) : List Char := (l.drop a).take (b - a)

/-- The whitespace class removed by JavaScript `String.prototype.trim`:
the ECMAScript WhiteSpace and LineTerminator productions — TAB, LF, VT,
FF, CR, SP, NBSP (U+00A0), Ogham space (U+1680), the Zs en-quad..hair-space
range (U+2000-U+200A), LS/PS (U+2028/2029), narrow NBSP (U+202F), medium
mathematical space (U+205F), ideographic space (U+3000) and ZWNBSP
(U+FEFF). -/
def isJsWhite (c : Char) : Bool :=
  let n := c.toNat
  (9 ≤ n && n ≤ 13) || n = 32 || n = 160 || n = 0x1680 ||
    (0x2000 ≤ n && n ≤ 0x200A) || n = 0x2028 || n = 0x2029 || n = 0x202F ||
    n = 0x205F || n = 0x3000 || n = 0xFEFF

/-- JavaScript `String.prototype.trim` on a code-unit list. -/
def trimL (l : List Char) : List Char :=
  ((l.dropWhile isJsWhite).reverse.dropWhile isJsWhite).reverse

/-- All start positions at which `pat` occurs inside `l`. -/
def occurrences (l pat : List Char) : List Nat :=
  (List.range (l.length + 1)).filter (fun i => pat.isPrefixOf (l.drop i))

/-- JavaScript `l.lastIndexOf(pat)`: the greatest start position of an
occurrence of `pat`, or `-1` when there is none. -/
def lastIndexOfL (l pat : List Char) : Int :=
  match (occurrences l pat).getLast? with
  | some i => (i : Int)
  | none => -1

/-- chunker.ts `findSplitIndex(text, start, end, minChunkSize)`.
The JS caller passes `minChunkSize = chunkSize * 0.5` and compares
`lastIndexOf` results (possibly `-1`) against it; here the final parameter
is `chunkSize` itself and the comparison `2 * i > chunkSize` is the exact
integer form of `i > chunkSize * 0.5`. -/
def findSplitIndex (text : List Char) (start e chunkSize : Nat) : Nat :=
  if text.length ≤ e then e
  else
    let slice := sliceL text start e
    let lastParagraph := lastIndexOfL slice ['\n', '\n']
    if 2 * lastParagraph > (chunkSize : Int) then start + lastParagraph.toNat + 2
    else
      let lastNewline := lastIndexOfL slice ['\n']
      if 2 * lastNewline > (chunkSize : Int) then start + lastNewline.toNat + 1
      else e

/-- One step value of the chunking loop: `Math.max(end - start - overlap, 1)`
(`Nat` subtraction truncates at 0 exactly where the JS difference would be
negative, and `Math.max` with 1 hides the difference). -/
def stepAt (text : List Char) (chunkSize overlap start : Nat) : Nat :=
  let maxEnd := min (start + chunkSize) text.length
  let e := findSplitIndex text start maxEnd chunkSize
  max (e - start - overlap) 1

/-- The chunk pushed by one iteration of the chunking loop:
`text.slice(start, end).trim()`. -/
def chunkAt (text : List Char) (chunkSize start : Nat) : List Char :=
  let maxEnd := min (start + chunkSize) text.length
  trimL (sliceL text start (findSplitIndex text start maxEnd chunkSize))

/-- The `while (start < text.length && chunks.length < MAX_CHUNKS)` loop of
chunker.ts `splitIntoChunks`, written as structural recursion on a fuel
argument so that it computes by `rfl`/`decide`; because every iteration
advances `start` by at least 1, fuel `text.length - start` makes the
recursion exit the loop for exactly the source's conditions
(`splitLoop_fuel_irrelevant` below proves any larger fuel gives the same
result). -/
def splitLoop (text : List Char) (chunkSize overlap : Nat) :
    Nat → Nat → List (List Char) → List (List Char)
  | 0, _, chunks => chunks
  | fuel + 1, start, chunks =>
    if start < text.length ∧ chunks.length < MAX_CHUNKS then
      splitLoop text chunkSize overlap fuel
        (start + stepAt text chunkSize overlap start)
        (chunks ++ [chunkAt text chunkSize start])
    else chunks

/-- chunker.ts `splitIntoChunks(text, chunkSize, overlap)`. -/
def splitIntoChunks (text : List Char)
    (chunkSize : Nat := DEFAULT_CHUNK_SIZE) (overlap : Nat := DEFAULT_OVERLAP) :
    List (List Char) :=
  if text.length = 0 then []
  else if text.length ≤ chunkSize then [text]
  else splitLoop text chunkSize overlap text.length 0 []

/-- Window (`start`, `end`) companion of `splitLoop`: records the untrimmed
character ranges the loop slices chunks from (same guard, same advance). -/
def splitWindows (text : List Char) (chunkSize overlap : Nat) :
    Nat → Nat → List (Nat × Nat) → List (Nat × Nat)
  | 0, _, ws => ws
  | fuel + 1, start, ws =>
    if start < text.length ∧ ws.length < MAX_CHUNKS then
      splitWindows text chunkSize overlap fuel
        (start + stepAt text chunkSize overlap start)
        (ws ++ [(start, findSplitIndex text start (min (start + chunkSize) text.length) chunkSize)])
    else ws

-- ════════════════════════════════════════════════════════════
-- CONTENT HASH (src/chunker.ts hashContent)
-- ════════════════════════════════════════════════════════════

/-- chunker.ts `hashContent`: the djb2 hash loop
`hash = ((hash << 5) + hash + text.charCodeAt(i)) >>> 0`.
In JS the shift works on 32-bit values and `>>> 0` reduces modulo `2 ^ 32`,
so one step is exactly `(hash * 33 + code) % 2 ^ 32`. -/
def hashContent (text : List Char) : Nat :=
  text.foldl (fun hash c => (hash * 33 + c.toNat) % 2 ^ 32) 5381

/-- JavaScript digit character for `Number.prototype.toString(36)`:
0-9 then lowercase a-z. -/
def digitChar36 (n : Nat) : Char :=
  if n < 10 then Char.ofNat (48 + n) else Char.ofNat (87 + n)

/-- JavaScript `n.toString(36)` for a non-negative integer `n`. -/
def toString36 (n : Nat) : List Char :=
  if n < 36 then [digitChar36 n]
  else toString36 (n / 36) ++ [digitChar36 (n % 36)]
termination_by n
decreasing_by exact Nat.div_lt_self (by omega) (by omega)

-- ════════════════════════════════════════════════════════════
-- LINE DIFF (model of the external jsdiff library)
-- ════════════════════════════════════════════════════════════

/-- A change object of the jsdiff library as consumed by
chunker.ts `computeDiff`: `count` (the number of lines in the change,
read with `?? 0`), the changed line content, and the `added`/`removed`
flags (both false on a common run). -/
structure Change where
  count : Option Nat
  value : List Char
  added : Bool
  removed : Bool
deriving DecidableEq, Repr

/-- Helper of the jsdiff line tokenizer; accumulates the current line in
reverse. -/
def toLinesAux : List Char → List Char → List (List Char)
  | [], acc => if acc = [] then [] else [acc.reverse]
  | c :: rest, acc =>
    if c = '\n' then (acc.reverse ++ [c]) :: toLinesAux rest []
    else toLinesAux rest (c :: acc)

/-- jsdiff line tokenizer: split into lines, each keeping its trailing
newline; the empty text has no lines. -/
def toLines (t : List Char) : List (List Char) :=
  toLinesAux t []

/-- Length of a longest common subsequence of two line lists, written with
a fuel argument (`lcsLen` supplies sufficient fuel) so it computes by
`decide`. -/
def lcsLenF : Nat → List (List Char) → List (List Char) → Nat
  | 0, _, _ => 0
  | _ + 1, [], _ => 0
  | _ + 1, _ :: _, [] => 0
  | fuel + 1, x :: xs, y :: ys =>
    if x = y then lcsLenF fuel xs ys + 1
    else max (lcsLenF fuel (x :: xs) ys) (lcsLenF fuel xs (y :: ys))

/-- Length of a longest common subsequence of two line lists. -/
def lcsLen (a b : List (List Char)) : Nat := lcsLenF (a.length + b.length) a b

/-- Modelled external library (jsdiff `diffLines` body): a minimal line
edit script between two line lists, one `Change` per line.  jsdiff groups
consecutive equal-kind lines into one change with `count` = group size;
the grouping granularity is irrelevant to `computeDiff`, which only sums
the counts, and any minimal script has the same sums (determined by the
longest-common-subsequence length). -/
def diffChangesF : Nat → List (List Char) → List (List Char) → List Change
  | 0, _, _ => []
  | _ + 1, [], [] => []
  | _ + 1, [], y :: ys => (y :: ys).map (fun l => ⟨some 1, l, true, false⟩)
  | _ + 1, x :: xs, [] => (x :: xs).map (fun l => ⟨some 1, l, false, true⟩)
  | fuel + 1, x :: xs, y :: ys =>
    if x = y then ⟨some 1, x, false, false⟩ :: diffChangesF fuel xs ys
    else if lcsLen xs (y :: ys) ≥ lcsLen (x :: xs) ys then
      ⟨some 1, x, false, true⟩ :: diffChangesF fuel xs (y :: ys)
    else
      ⟨some 1, y, true, false⟩ :: diffChangesF fuel (x :: xs) ys

/-- Modelled external library: jsdiff `diffLines(oldText, newText)`. -/
def diffLines (oldText newText : List Char) : List Change :=
  diffChangesF (oldText.length + newText.length + 1) (toLines oldText) (toLines newText)

/-- The `changedLines` accumulation loop of chunker.ts `computeDiff`:
`if (change.added || change.removed) changedLines += change.count ?? 0`. -/
def countChanged (changes : List Change) : Nat :=
  changes.foldl (fun acc c => if c.added || c.removed then acc + c.count.getD 0 else acc) 0

/-- The `totalLines` accumulation loop of chunker.ts `computeDiff`:
`totalLines += change.count ?? 0`. -/
def countTotal (changes : List Change) : Nat :=
  changes.foldl (fun acc c => acc + c.count.getD 0) 0

/-- The changed-chunk scan of chunker.ts `computeDiff`: indices
`0 ≤ i < max(oldChunks.length, newChunks.length)` where the chunk texts
differ positionally (a missing chunk — JS `undefined` — is `none` and
differs from every present chunk). -/
def changedChunksOf (oldChunks newChunks : List (List Char)) : List Nat :=
  (List.range (max oldChunks.length newChunks.length)).filter
    (fun i => oldChunks[i]? ≠ newChunks[i]?)

/-- The tag character a change contributes to a unified patch. -/
def changeTag (c : Change) : Char :=
  if c.added then '+' else if c.removed then '-' else ' '

/-- Modelled external library: jsdiff
`createTwoFilesPatch(oldFile, newFile, oldText, newText, oldHeader,
newHeader, options)`.  The header lines are exactly the library's
(a 67-character ruler and the two file lines); the body is simplified to
tag-prefixed lines without hunk headers or context trimming — the snapshot
store treats the patch as an opaque string, so only its presence matters.
The result is non-empty by construction, as is the library's. -/
def createTwoFilesPatch (oldFile newFile : String) (oldText newText : List Char)
    (oldHeader newHeader : String) : List Char :=
  (List.replicate 67 '=' ++ ['\n'])
    ++ ("--- " ++ oldFile ++ "\t" ++ oldHeader ++ "\n").toList
    ++ ("+++ " ++ newFile ++ "\t" ++ newHeader ++ "\n").toList
    ++ (diffLines oldText newText).flatMap (fun c => changeTag c :: c.value)

-- ════════════════════════════════════════════════════════════
-- SNAPSHOT STORE (src/chunker.ts SnapshotStoreImpl)
-- ════════════════════════════════════════════════════════════

/-- One entry of a snapshot's editor-content map:
`{ label: string; code: string }`. -/
structure EditorEntry where
  label : String
  code : List Char

/-- A snapshot's optional editor-content map
(`Record<string, { label; code }>`), modelled as a lookup function. -/
def EditorMap := String → Option EditorEntry

/-- chunker.ts `Snapshot`. -/
structure Snapshot where
  url : String
  title : String
  markdown : List Char
  chunks : List (List Char)
  hash : List Char
  updatedAt : Nat
  editorContents : Option EditorMap

/-- chunker.ts `DiffResult`. -/
inductive DiffResult where
  | unchanged
  | small_diff (patch : List Char) (changedLines totalLines : Nat) (changedChunks : List Nat)
  | large_diff (changedLines totalLines : Nat) (changedChunks : List Nat)
  | url_changed (oldUrl newUrl : String)
  | no_previous
deriving DecidableEq, Repr

/-- chunker.ts `TabEntry`: the two snapshot slots of one tab. -/
structure TabEntry where
  latest : Snapshot
  previous : Option Snapshot

/-- The store state: one optional `TabEntry` per tab id.  The source backs
the in-memory `Map` with `chrome.storage.local` under the key
`"snapshot_" + tabId`; reads check the cache first and persistence
failures leave the cache authoritative, so a single map models the
observable state. -/
def Tabs := Nat → Option TabEntry

/-- Store update after `saveTab(tabId, entry)`. -/
def saveTab (tabs : Tabs) (tabId : Nat) (entry : TabEntry) : Tabs :=
  fun t => if t = tabId then some entry else tabs t

/-- The content argument of `push`. -/
structure Content where
  url : String
  title : String
  markdown : List Char
  editorContents : Option EditorMap

/-- chunker.ts `computeDiff(oldText, newText, oldChunks, newChunks)`.
The ratio comparison `changedLines / totalLines > DIFF_THRESHOLD_RATIO`
(threshold 0.3) is written in the exact scaled integer form
`10 * changedLines > 3 * totalLines`. -/
def computeDiff (oldText newText : List Char) (oldChunks newChunks : List (List Char)) :
    DiffResult :=
  let changes := diffLines oldText newText
  let changedLines := countChanged changes
  let totalLines := countTotal changes
  if totalLines = 0 then DiffResult.unchanged
  else
    let changedChunks := changedChunksOf oldChunks newChunks
    if 10 * changedLines > 3 * totalLines then
      DiffResult.large_diff changedLines totalLines changedChunks
    else
      DiffResult.small_diff
        (createTwoFilesPatch "previous" "current" oldText newText "" "")
        changedLines totalLines changedChunks

/-- The snapshot built at the top of `push` (both `Date.now()` reads of the
source happen within one push and are modelled by the single `now`). -/
def mkSnapshot (now : Nat) (content : Content) : Snapshot :=
  { url := content.url
    title := content.title
    markdown := content.markdown
    chunks := splitIntoChunks content.markdown
    hash := toString36 (hashContent content.markdown)
    updatedAt := now
    editorContents := content.editorContents }

/-- Result of `push`: the updated store plus the returned
`{ snapshot, diff }`. -/
structure PushResult where
  tabs : Tabs
  snapshot : Snapshot
  diff : DiffResult

/-- chunker.ts `SnapshotStoreImpl.push(tabId, content)`. -/
def push (tabs : Tabs) (now : Nat) (tabId : Nat) (content : Content) : PushResult :=
  let newSnapshot := mkSnapshot now content
  match tabs tabId with
  | none =>
    { tabs := saveTab tabs tabId ⟨newSnapshot, none⟩
      snapshot := newSnapshot
      diff := DiffResult.no_previous }
  | some existing =>
    let oldLatest := existing.latest
    if now - oldLatest.updatedAt > TTL_MS then
      { tabs := saveTab tabs tabId ⟨newSnapshot, none⟩
        snapshot := newSnapshot
        diff := DiffResult.no_previous }
    else
      let tabs2 := saveTab tabs tabId ⟨newSnapshot, some oldLatest⟩
      if oldLatest.url ≠ content.url then
        { tabs := tabs2
          snapshot := newSnapshot
          diff := DiffResult.url_changed oldLatest.url content.url }
      else if oldLatest.hash = newSnapshot.hash then
        { tabs := tabs2, snapshot := newSnapshot, diff := DiffResult.unchanged }
      else
        { tabs := tabs2
          snapshot := newSnapshot
          diff := computeDiff oldLatest.markdown content.markdown
            oldLatest.chunks newSnapshot.chunks }

/-- The snapshot-source selector of the read operations:
`source === "latest" ? entry.latest : entry.previous`. -/
inductive Source where
  | latest
  | previous
deriving DecidableEq, Repr

/-- The snapshot chosen by a `source` argument. -/
def snapOf (entry : TabEntry) : Source → Option Snapshot
  | Source.latest => some entry.latest
  | Source.previous => entry.previous

/-- chunker.ts `SnapshotStoreImpl.getChunks(tabId, source, indices)`.
Indices arrive as raw JS numbers, modelled as `Int` so negative requests
are representable; they are filtered to the snapshot's range exactly as in
the source. -/
def getChunks (tabs : Tabs) (tabId : Nat) (source : Source) (indices : List Int) :
    List (Int × List Char) :=
  match tabs tabId with
  | none => []
  | some entry =>
    match snapOf entry source with
    | none => []
    | some snapshot =>
      (indices.filter (fun i => decide (0 ≤ i ∧ i < (snapshot.chunks.length : Int)))).map
        (fun i => (i, snapshot.chunks.getD i.toNat []))

/-- chunker.ts `SnapshotStoreImpl.getEditorContent(tabId, source, key)`.
The source returns `snapshot.editorContents[key]?.code || null`: the
`|| null` maps an empty stored string to `null` as well. -/
def getEditorContent (tabs : Tabs) (tabId : Nat) (source : Source) (key : String) :
    Option (List Char) :=
  match tabs tabId with
  | none => none
  | some entry =>
    match snapOf entry source with
    | none => none
    | some snapshot =>
      match snapshot.editorContents with
      | none => none
      | some m =>
        match m key with
        | none => none
        | some e => if e.code = [] then none else some e.code

-- ════════════════════════════════════════════════════════════
-- INFERENCE CLIENT RETRY LOOP (gemini module, executeRequest)
-- ════════════════════════════════════════════════════════════

/-- Whether `pat` occurs as a contiguous sublist of `s`
(JS `String.prototype.includes`). -/
def containsSub (s pat : List Char) : Bool :=
  (List.range (s.length + 1)).any (fun i => pat.isPrefixOf (s.drop i))

/-- gemini module `isClaudeThinkingModel`: the lowercased model id contains
both "claude" and "thinking". -/
def isClaudeThinkingModel (modelId : String) : Bool :=
  let normalized := modelId.toList.map Char.toLower
  containsSub normalized "claude".toList && containsSub normalized "thinking".toList

/-- JS `parseInt(digits, 10)` on a non-empty digit run. -/
def natOfDigits (ds : List Char) : Nat :=
  ds.foldl (fun a c => a * 10 + (c.toNat - 48)) 0

/-- Whether the regex `/after (\d+)s/` matches at the very start of `l`;
on success the captured digits.  Since a digit run followed by the literal
`s` admits no backtracking (no digit is `s`), the greedy maximal run is the
unique candidate. -/
def matchRetryAt (l : List Char) : Option Nat :=
  if ("after ".toList).isPrefixOf l then
    let rest := l.drop 6
    let ds := rest.takeWhile Char.isDigit
    if ds ≠ [] ∧ (rest.drop ds.length).head? = some 's' then some (natOfDigits ds)
    else none
  else none

/-- The retry-hint extraction `errorText.match(/after (\d+)s/)` of
`executeRequest`: the captured group of the leftmost match, if any. -/
def parseRetryAfter : List Char → Option Nat
  | [] => none
  | c :: rest =>
    match matchRetryAt (c :: rest) with
    | some n => some n
    | none => parseRetryAfter rest

/-- The over-ceiling rate-limit message built by `executeRequest`
(`waitSeconds - 1` is the parsed hint when one was present). -/
def rateLimitMsg (body : List Char) : String :=
  match parseRetryAfter body with
  | some n => "Rate limit exceeded. Please try again in " ++ toString n ++ " seconds."
  | none => "Rate limit exceeded. Please try again later."

/-- The terminal error message of `executeRequest` for a non-retriable
status: the specialized 404 text for Claude thinking models, else the
generic `API error (status): body` text. -/
def apiErrorMsg (modelId : String) (status : Nat) (body : List Char) : String :=
  if status = 404 && isClaudeThinkingModel modelId then
    "Claude model " ++ modelId ++ " not found (404). Your Google Cloud project likely does not have access to these internal/beta models. Try using a Gemini model instead."
  else "API error (" ++ toString status ++ "): " ++ String.mk body

/-- Outcome of one `fetch` call against one endpoint: a 2xx response, a
non-2xx response with its status and error body, or a thrown network error
(named `AbortError` when the abort signal cancelled the call). -/
inductive FetchOutcome where
  | ok
  | httpError (status : Nat) (body : List Char)
  | netError (name msg : String)

/-- Externally observable actions of the retry loop: issuing a fetch to an
endpoint, and sleeping for a backoff delay. -/
inductive Action where
  | fetchReq (endpoint : String)
  | sleep (ms : Nat)
deriving DecidableEq, Repr

/-- How the per-endpoint `while (attempt < MAX_RETRIES)` loop ends:
a 2xx response (`success`), or moving on with the endpoint's final
`lastError` (set by a terminal status, an over-ceiling rate limit, a
network error, or still absent after exhausting the retries). -/
inductive EndpointResult where
  | success
  | given_up (lastError : Option String)
deriving DecidableEq

/-- gemini module constant MAX_RETRIES. -/
def MAX_RETRIES : Nat := 3

/-- The per-endpoint retry loop of `executeRequest`.  `f a` is the outcome
of the fetch on attempt number `a` (the source increments `attempt` before
fetching, so attempts are numbered from 1); `fuel` is the number of
attempts left, `MAX_RETRIES - attempt`, making the recursion structural. -/
def runEndpoint (modelId ep : String) (f : Nat → FetchOutcome) :
    Nat → Nat → Option String → List Action × EndpointResult
  | 0, _, lastError => ([], EndpointResult.given_up lastError)
  | fuel + 1, attempt, lastError =>
    let a := attempt + 1
    match f a with
    | FetchOutcome.ok => ([Action.fetchReq ep], EndpointResult.success)
    | FetchOutcome.httpError status body =>
      if status = 429 then
        let waitSeconds := match parseRetryAfter body with
          | some n => n + 1
          | none => 2
        if waitSeconds ≤ 20 then
          let r := runEndpoint modelId ep f fuel a lastError
          (Action.fetchReq ep :: Action.sleep (waitSeconds * 1000) :: r.1, r.2)
        else ([Action.fetchReq ep], EndpointResult.given_up (some (rateLimitMsg body)))
      else if status = 503 then
        let r := runEndpoint modelId ep f fuel a lastError
        (Action.fetchReq ep :: Action.sleep (1000 * 2 ^ a) :: r.1, r.2)
      else ([Action.fetchReq ep], EndpointResult.given_up (some (apiErrorMsg modelId status body)))
    | FetchOutcome.netError name msg =>
      if name = "AbortError" then ([Action.fetchReq ep], EndpointResult.given_up (some msg))
      else
        let r := runEndpoint modelId ep f fuel a (some msg)
        (Action.fetchReq ep :: Action.sleep (1000 * 2 ^ a) :: r.1, r.2)

/-- gemini module `executeRequest`: try each endpoint in order with the
per-endpoint retry loop; the first 2xx wins, and if none succeeds the
error is the last endpoint's `lastError` (or the generic connect failure).
`outcomes ep a` is the fetch outcome for attempt `a` on endpoint `ep`. -/
def executeRequestGo (modelId : String) (outcomes : String → Nat → FetchOutcome) :
    List String → List Action × Except String Unit
  | [] => ([], Except.error "Failed to connect to Cloud Code Assist API")
  | ep :: rest =>
    match runEndpoint modelId ep (outcomes ep) MAX_RETRIES 0 none with
    | (acts, EndpointResult.success) => (acts, Except.ok ())
    | (acts, EndpointResult.given_up lastError) =>
      match rest with
      | [] =>
        (acts, Except.error (lastError.getD "Failed to connect to Cloud Code Assist API"))
      | _ :: _ =>
        let r := executeRequestGo modelId outcomes rest
        (acts ++ r.1, r.2)

/-- The endpoint loop entry point with the full endpoint list. -/
def executeRequest (modelId : String) (endpoints : List String)
    (outcomes : String → Nat → FetchOutcome) : List Action × Except String Unit :=
  executeRequestGo modelId outcomes endpoints

-- ════════════════════════════════════════════════════════════
-- AGENT ORCHESTRATOR (background service worker, agentic loop)
-- ════════════════════════════════════════════════════════════

/-- background module constant MAX_TOOL_ROUNDS. -/
def MAX_TOOL_ROUNDS : Nat := 50

/-- The dynamic tool-argument payload, modelled as optional typed fields
(an absent field is JS `undefined`). -/
structure ToolArgs where
  source : Option Source := none
  indices : Option (List Int) := none
  keys : Option (List String) := none
  key : Option String := none
  find : Option String := none
  replace : Option String := none
deriving DecidableEq, Repr

/-- A tool/function call emitted by the model. -/
structure FunctionCall where
  name : String
  args : ToolArgs
deriving DecidableEq, Repr

/-- The structured result a tool execution feeds back into the
conversation: the `{ chunks }` object of read_page_chunks, the
JSON-stringified key/content record of read_editable_content, the success
object of write_editable_content, or the caught-error object
`{ error, status: "failed" }`. -/
inductive ToolResult where
  | chunks (cs : List (Int × List Char))
  | json (obj : List (String × List Char))
  | writeOk (key : String)
  | failed (error : String)
deriving DecidableEq, Repr

/-- A provider-native part as accumulated in `modelParts` and replayed into
the conversation: a (possibly thinking) text part, a function-call part, or
a function-response part added by tool execution. -/
inductive Part where
  | text (s : String) (thought : Bool)
  | functionCall (fc : FunctionCall)
  | functionResponse (name : String) (content : ToolResult)
deriving DecidableEq, Repr

/-- Token-usage counters of a stream chunk. -/
structure Usage where
  input : Nat
  output : Nat
  total : Nat
deriving DecidableEq, Repr

/-- gemini module `StreamChunk` as consumed by the agentic loop. -/
structure StreamChunk where
  text : Option String := none
  thinking : Option String := none
  finishReason : Option String := none
  usage : Option Usage := none
  error : Option String := none
  functionCall : Option FunctionCall := none
  rawPart : Option Part := none
deriving DecidableEq, Repr

/-- The `{ rawPart, ...uiChunk }` rest object forwarded to the UI. -/
structure UiChunk where
  text : Option String := none
  thinking : Option String := none
  finishReason : Option String := none
  usage : Option Usage := none
  error : Option String := none
  functionCall : Option FunctionCall := none
deriving DecidableEq, Repr

/-- The uiChunk rest object built from a stream chunk by dropping
`rawPart`. -/
def uiOf (c : StreamChunk) : UiChunk :=
  { text := c.text, thinking := c.thinking, finishReason := c.finishReason
    usage := c.usage, error := c.error, functionCall := c.functionCall }

/-- The caller-facing events the loop posts over the port: a forwarded
chunk, a tool-call notification, and the final done signal with its
aborted flag. -/
inductive OutEvent where
  | chunk (c : UiChunk)
  | toolCall (name : String) (args : ToolArgs) (source : Source) (round : Nat)
  | done (aborted : Bool)
deriving DecidableEq, Repr

/-- Conversation turn role. -/
inductive Role where
  | user
  | model
deriving DecidableEq, Repr

/-- gemini module `ChatMessage`. -/
structure ChatMessage where
  role : Role
  parts : List Part
deriving DecidableEq, Repr

/-- JS truthiness of an optional string (`undefined` and the empty string
are falsy). -/
def isTruthyStr (o : Option String) : Bool :=
  match o with
  | none => false
  | some s => s ≠ ""

/-- Per-round mutable state of the streaming phase: `modelParts`,
`heldUsage`, `heldFinishReason`, plus the chunk events already posted. -/
structure RoundState where
  modelParts : List Part
  heldUsage : Option Usage
  heldFinishReason : Option String
  uiEvents : List OutEvent
deriving Repr

/-- One iteration of the `for await (const chunk of streamGeminiChat(...))`
body (the non-aborted path): push `rawPart` if present; then, for chunks
without a function call, hold a truthy finish reason, else hold usage,
else forward the chunk to the UI. -/
def streamStep (st : RoundState) (c : StreamChunk) : RoundState :=
  let st1 := match c.rawPart with
    | some p => { st with modelParts := st.modelParts ++ [p] }
    | none => st
  if c.functionCall.isSome then st1
  else if isTruthyStr c.finishReason then { st1 with heldFinishReason := c.finishReason }
  else if c.usage.isSome then { st1 with heldUsage := c.usage }
  else { st1 with uiEvents := st1.uiEvents ++ [OutEvent.chunk (uiOf c)] }

/-- The whole streaming phase of one round over the chunks the inference
client yields. -/
def processStream (chunks : List StreamChunk) : RoundState :=
  chunks.foldl streamStep ⟨[], none, none, []⟩

/-- The tool-call selection
`modelParts.filter(p => p.functionCall).map(p => p.functionCall)`. -/
def partFCs (parts : List Part) : List FunctionCall :=
  parts.filterMap (fun p =>
    match p with
    | Part.functionCall fc => some fc
    | _ => none)

/-- Result of the page-write side channel `writeEditorContent`
(external collaborator). -/
structure WriteResult where
  success : Bool
  error : Option String

/-- The collaborators the tool-execution phase consults: the snapshot
store state, the active tab resolved while preparing the turn, and the
page-write side channel. -/
structure ToolEnv where
  tabs : Tabs
  activeTabId : Option Nat
  writeEditor : Nat → String → String → String → WriteResult

/-- The `resultObj[key] = content` record build of the
read_editable_content dispatch: keys whose `getEditorContent` is `null`
are omitted; assignment to a JS object overwrites an existing key in
place. -/
def setKey (obj : List (String × List Char)) (key : String) (v : List Char) :
    List (String × List Char) :=
  if obj.any (fun p => p.1 = key) then
    obj.map (fun p => if p.1 = key then (key, v) else p)
  else obj ++ [(key, v)]

/-- The read_editable_content loop over the requested keys. -/
def readEditableResult (tabs : Tabs) (tabId : Nat) (source : Source)
    (keys : List String) : List (String × List Char) :=
  keys.foldl (fun acc key =>
    match getEditorContent tabs tabId source key with
    | none => acc
    | some c => setKey acc key c) []

/-- The `try` body of one tool-call dispatch: the thrown error message on
failure, the structured tool result on success.  Mirrors the source checks:
no active tab, the per-tool required parameters (JS `!key` is also true for
the empty string, `find == null` only for absent values), the page-write
failure rethrow (`result.error || "Write failed"`), and the unknown-tool
fallback.  The missing-keys message drops the source's quote marks around
the word keys; no theorem inspects that text. -/
def execToolCallCore (env : ToolEnv) (fc : FunctionCall) : Except String ToolResult :=
  match env.activeTabId with
  | none => Except.error "No active tab found to read content from."
  | some tabId =>
    let source := fc.args.source.getD Source.latest
    if fc.name = "read_page_chunks" then
      Except.ok (ToolResult.chunks (getChunks env.tabs tabId source (fc.args.indices.getD [])))
    else if fc.name = "read_editable_content" then
      match fc.args.keys with
      | none => Except.error "Missing keys parameter for read_editable_content"
      | some keys => Except.ok (ToolResult.json (readEditableResult env.tabs tabId source keys))
    else if fc.name = "write_editable_content" then
      match fc.args.key, fc.args.find, fc.args.replace with
      | some key, some f, some r =>
        if key = "" then
          Except.error "Missing required parameters (key, find, replace) for write_editable_content"
        else
          let res := env.writeEditor tabId key f r
          if res.success then Except.ok (ToolResult.writeOk key)
          else
            Except.error (match res.error with
              | some e => if e = "" then "Write failed" else e
              | none => "Write failed")
      | _, _, _ =>
        Except.error "Missing required parameters (key, find, replace) for write_editable_content"
    else Except.error ("Unknown tool: " ++ fc.name)

/-- One tool-call dispatch: on success the toolCall notification is posted
and the result wrapped as a function response; a thrown error is caught
per call and converted into the structured failure result (no event is
posted for it, and the turn is not aborted). -/
def execToolCall (env : ToolEnv) (round : Nat) (fc : FunctionCall) :
    List OutEvent × Part :=
  match execToolCallCore env fc with
  | Except.ok r =>
    ([OutEvent.toolCall fc.name fc.args (fc.args.source.getD Source.latest) round],
      Part.functionResponse fc.name r)
  | Except.error e => ([], Part.functionResponse fc.name (ToolResult.failed e))

/-- The `if (heldFinishReason) ... if (heldUsage) ...` flush performed when
a round ends with no tool call. -/
def flushHeld (f : Option String) (u : Option Usage) : List OutEvent :=
  (if isTruthyStr f then [OutEvent.chunk { finishReason := f }] else [])
    ++ (if u.isSome then [OutEvent.chunk { usage := u }] else [])

/-- The `for (let round = 0; round < MAX_TOOL_ROUNDS; round++)` agentic
loop (the run on which the abort signal never fires; abort checks are then
no-ops).  `stream round` is the chunk sequence the inference client yields
for that round's call — the source rebuilds the request from the
conversation, which the model threads alongside.  `roundsLeft` is
`MAX_TOOL_ROUNDS - round`, making the recursion structural.  Returns the
posted events (without the final done) and the final conversation. -/
def agenticRun (env : ToolEnv) (stream : Nat → List StreamChunk) :
    Nat → Nat → List ChatMessage → List OutEvent × List ChatMessage
  | 0, _, conversation => ([], conversation)
  | roundsLeft + 1, round, conversation =>
    let st := processStream (stream round)
    let functionCallsToExecute := partFCs st.modelParts
    if functionCallsToExecute.isEmpty then
      (st.uiEvents ++ flushHeld st.heldFinishReason st.heldUsage, conversation)
    else
      let results := functionCallsToExecute.map (execToolCall env round)
      let toolEvents := results.flatMap Prod.fst
      let functionResponses := results.map Prod.snd
      let conversation2 :=
        conversation ++ [⟨Role.model, st.modelParts⟩] ++ [⟨Role.user, functionResponses⟩]
      let rest := agenticRun env stream roundsLeft (round + 1) conversation2
      (st.uiEvents ++ toolEvents ++ rest.1, rest.2)

/-- One whole chat turn on the caller-facing channel: the agentic loop's
events followed by the final done signal (aborted = false on a run where
the signal never fires). -/
def chatTurn (env : ToolEnv) (stream : Nat → List StreamChunk)
    (conversation : List ChatMessage) : List OutEvent :=
  (agenticRun env stream MAX_TOOL_ROUNDS 0 conversation).1 ++ [OutEvent.done false]

-- ════════════════════════════════════════════════════════════
-- CHUNKER LEMMAS
-- ════════════════════════════════════════════════════════════

/-- Any two fuels at least `text.length - start` drive `splitLoop` to the
same result: the loop exits for exactly the source's conditions, so the
fuel `text.length` used by `splitIntoChunks` is sufficient. -/
lemma splitLoop_fuel_irrelevant (text : List Char) (chunkSize overlap : Nat) :
    ∀ (fuel fuel2 start : Nat) (chunks : List (List Char)),
      text.length - start ≤ fuel → text.length - start ≤ fuel2 →
      splitLoop text chunkSize overlap fuel start chunks =
        splitLoop text chunkSize overlap fuel2 start chunks := by
  intro fuel
  induction fuel with
  | zero =>
    intro fuel2 start chunks h1 _
    cases fuel2 with
    | zero => rfl
    | succ m =>
      simp only [splitLoop]
      rw [if_neg (show ¬(start < text.length ∧ chunks.length < MAX_CHUNKS) by omega)]
  | succ n ih =>
    intro fuel2 start chunks h1 h2
    cases fuel2 with
    | zero =>
      simp only [splitLoop]
      rw [if_neg (show ¬(start < text.length ∧ chunks.length < MAX_CHUNKS) by omega)]
    | succ m =>
      simp only [splitLoop]
      by_cases hg : start < text.length ∧ chunks.length < MAX_CHUNKS
      · rw [if_pos hg, if_pos hg]
        have hstep : 1 ≤ stepAt text chunkSize overlap start := Nat.le_max_right _ _
        exact ih m (start + stepAt text chunkSize overlap start) _ (by omega) (by omega)
      · rw [if_neg hg, if_neg hg]

lemma splitLoop_length_le (text : List Char) (chunkSize overlap : Nat) :
    ∀ (fuel start : Nat) (chunks : List (List Char)), chunks.length ≤ MAX_CHUNKS →
      (splitLoop text chunkSize overlap fuel start chunks).length ≤ MAX_CHUNKS := by
  intro fuel
  induction fuel with
  | zero => intro start chunks h; simpa [splitLoop] using h
  | succ n ih =>
    intro start chunks h
    rw [splitLoop]
    by_cases hg : start < text.length ∧ chunks.length < MAX_CHUNKS
    · rw [if_pos hg]
      exact ih _ _ (by simp only [List.length_append, List.length_singleton]; omega)
    · rw [if_neg hg]; exact h

/-- C7: every iteration of the splitIntoChunks loop advances the window
start by at least 1 (even when the overlap exceeds the window), and the
loop stops at the fixed MAX_CHUNKS cap, so the result never holds more
than MAX_CHUNKS chunks.  (Termination itself is definitional here: the
loop is a total function.) -/
theorem C7_progress_and_cap :
    (∀ (text : List Char) (chunkSize overlap start : Nat),
      1 ≤ stepAt text chunkSize overlap start) ∧
    (∀ (text : List Char) (chunkSize overlap : Nat),
      (splitIntoChunks text chunkSize overlap).length ≤ MAX_CHUNKS) := by
  constructor
  · intro text chunkSize overlap start
    exact Nat.le_max_right _ _
  · intro text chunkSize overlap
    unfold splitIntoChunks
    split_ifs
    · simp [MAX_CHUNKS]
    · simp [MAX_CHUNKS]
    · exact splitLoop_length_le _ _ _ _ _ _ (by simp)

/-- Rendering one recorded window into the chunk string the loop pushes. -/
def renderWindow (text : List Char) (w : Nat × Nat) : List Char :=
  trimL (sliceL text w.1 w.2)

lemma splitLoop_eq_windows (text : List Char) (chunkSize overlap : Nat) :
    ∀ (fuel start : Nat) (ws : List (Nat × Nat)),
      splitLoop text chunkSize overlap fuel start (ws.map (renderWindow text)) =
        (splitWindows text chunkSize overlap fuel start ws).map (renderWindow text) := by
  intro fuel
  induction fuel with
  | zero => intro start ws; simp [splitLoop, splitWindows]
  | succ n ih =>
    intro start ws
    rw [splitLoop, splitWindows]
    simp only [List.length_map]
    by_cases hg : start < text.length ∧ ws.length < MAX_CHUNKS
    · rw [if_pos hg, if_pos hg]
      have hmap : ws.map (renderWindow text) ++ [chunkAt text chunkSize start] =
          (ws ++ [(start,
            findSplitIndex text start (min (start + chunkSize) text.length) chunkSize)]).map
            (renderWindow text) := by
        simp [renderWindow, chunkAt]
      rw [hmap, ih]
    · rw [if_neg hg, if_neg hg]

lemma splitWindows_extends (text : List Char) (chunkSize overlap : Nat) :
    ∀ (fuel start : Nat) (ws : List (Nat × Nat)),
      ∃ tail, splitWindows text chunkSize overlap fuel start ws = ws ++ tail := by
  intro fuel
  induction fuel with
  | zero => intro start ws; exact ⟨[], by simp [splitWindows]⟩
  | succ n ih =>
    intro start ws
    rw [splitWindows]
    by_cases hg : start < text.length ∧ ws.length < MAX_CHUNKS
    · rw [if_pos hg]
      obtain ⟨tail, ht⟩ := ih (start + stepAt text chunkSize overlap start)
        (ws ++ [(start, findSplitIndex text start (min (start + chunkSize) text.length) chunkSize)])
      exact ⟨(start, findSplitIndex text start (min (start + chunkSize) text.length) chunkSize)
        :: tail, by rw [ht]; simp⟩
    · rw [if_neg hg]; exact ⟨[], by simp⟩

lemma occurrences_bound {l pat : List Char} {i : Nat} (h : i ∈ occurrences l pat) :
    i + pat.length ≤ l.length := by
  simp only [occurrences, List.mem_filter, List.mem_range] at h
  obtain ⟨hi, hp⟩ := h
  have hpre := List.isPrefixOf_iff_prefix.1 hp
  have hlen := List.IsPrefix.length_le hpre
  simp only [List.length_drop] at hlen
  omega

lemma lastIndexOfL_cases (l pat : List Char) :
    lastIndexOfL l pat = -1 ∨
      ∃ i, i ∈ occurrences l pat ∧ lastIndexOfL l pat = (i : Int) := by
  unfold lastIndexOfL
  rcases hlast : (occurrences l pat).getLast? with _ | i
  · exact Or.inl rfl
  · exact Or.inr ⟨i, List.mem_of_mem_getLast? hlast, rfl⟩

lemma sliceL_length {text : List Char} {start e : Nat} (he : e ≤ text.length) :
    (sliceL text start e).length = e - start := by
  simp [sliceL, List.length_take, List.length_drop]
  omega

lemma findSplitIndex_bounds {text : List Char} {start e chunkSize : Nat}
    (hs : start < e) (he : e ≤ text.length) :
    start < findSplitIndex text start e chunkSize ∧
      findSplitIndex text start e chunkSize ≤ e := by
  unfold findSplitIndex
  by_cases h0 : text.length ≤ e
  · rw [if_pos h0]; exact ⟨hs, le_refl e⟩
  rw [if_neg h0]
  set slice := sliceL text start e with hslice
  have hslen : slice.length = e - start := sliceL_length he
  by_cases h1 : 2 * lastIndexOfL slice ['\n', '\n'] > (chunkSize : Int)
  · rw [if_pos h1]
    rcases lastIndexOfL_cases slice ['\n', '\n'] with hneg | ⟨i, hmem, heq⟩
    · rw [hneg] at h1; omega
    · rw [heq] at h1
      have hb := occurrences_bound hmem
      have : (Int.ofNat i).toNat = i := rfl
      rw [heq]
      simp only [Int.toNat_ofNat]
      constructor
      · omega
      · simp only [List.length_cons, List.length_nil] at hb
        omega
  rw [if_neg h1]
  by_cases h2 : 2 * lastIndexOfL slice ['\n'] > (chunkSize : Int)
  · rw [if_pos h2]
    rcases lastIndexOfL_cases slice ['\n'] with hneg | ⟨i, hmem, heq⟩
    · rw [hneg] at h2; omega
    · rw [heq] at h2
      have hb := occurrences_bound hmem
      rw [heq]
      simp only [Int.toNat_ofNat]
      constructor
      · omega
      · simp only [List.length_cons, List.length_nil] at hb
        omega
  · rw [if_neg h2]; exact ⟨hs, le_refl e⟩

lemma splitWindows_coverage (text : List Char) (chunkSize overlap : Nat)
    (hcs : 1 ≤ chunkSize) :
    ∀ (fuel start : Nat) (ws : List (Nat × Nat)), text.length - start ≤ fuel →
      (splitWindows text chunkSize overlap fuel start ws).length < MAX_CHUNKS →
      ∀ i, start ≤ i → i < text.length →
        ∃ w ∈ splitWindows text chunkSize overlap fuel start ws, w.1 ≤ i ∧ i < w.2 := by
  intro fuel
  induction fuel with
  | zero => intro start ws hfuel _ i hsi hi; omega
  | succ n ih =>
    intro start ws hfuel hlen i hsi hi
    rw [splitWindows] at hlen ⊢
    by_cases hg : start < text.length ∧ ws.length < MAX_CHUNKS
    · rw [if_pos hg] at hlen ⊢
      have hbounds := @findSplitIndex_bounds text start
        (min (start + chunkSize) text.length) chunkSize
        (lt_min (by omega) hg.1) (min_le_right (start + chunkSize) text.length)
      have hstep : 1 ≤ stepAt text chunkSize overlap start := Nat.le_max_right _ _
      have hstep2 : start + stepAt text chunkSize overlap start ≤
          findSplitIndex text start (min (start + chunkSize) text.length) chunkSize := by
        have : stepAt text chunkSize overlap start =
            max (findSplitIndex text start (min (start + chunkSize) text.length) chunkSize
              - start - overlap) 1 := rfl
        omega
      by_cases hie :
          i < findSplitIndex text start (min (start + chunkSize) text.length) chunkSize
      · obtain ⟨tail, ht⟩ := splitWindows_extends text chunkSize overlap n
          (start + stepAt text chunkSize overlap start)
          (ws ++ [(start, findSplitIndex text start (min (start + chunkSize) text.length) chunkSize)])
        refine ⟨(start, findSplitIndex text start (min (start + chunkSize) text.length) chunkSize),
          ?_, hsi, hie⟩
        rw [ht]
        simp
      · exact ih (start + stepAt text chunkSize overlap start)
          (ws ++ [(start, findSplitIndex text start (min (start + chunkSize) text.length) chunkSize)])
          (by omega) hlen i (by omega) hi
    · rw [if_neg hg] at hlen ⊢
      rcases not_and_or.mp hg with h | h
      · omega
      · exact absurd hlen (by omega)

lemma mem_dropWhile_of_not {c : Char} {l : List Char} (hc : isJsWhite c = false)
    (h : c ∈ l) : c ∈ l.dropWhile isJsWhite := by
  induction l with
  | nil => cases h
  | cons a t ih =>
    rw [List.dropWhile_cons]
    by_cases ha : isJsWhite a = true
    · rw [if_pos ha]
      rcases List.mem_cons.mp h with rfl | ht
      · exact absurd ha (by simp [hc])
      · exact ih ht
    · rw [if_neg ha]
      exact h

lemma mem_trimL_of_not_white {c : Char} {l : List Char} (hc : isJsWhite c = false)
    (h : c ∈ l) : c ∈ trimL l := by
  unfold trimL
  rw [List.mem_reverse]
  apply mem_dropWhile_of_not hc
  rw [List.mem_reverse]
  exact mem_dropWhile_of_not hc h

lemma mem_sliceL {text : List Char} {a b i : Nat} (h1 : a ≤ i) (h2 : i < b)
    (h3 : i < text.length) : text.getD i ' ' ∈ sliceL text a b := by
  have hlen : i - a < (sliceL text a b).length := by
    simp only [sliceL, List.length_take, List.length_drop]
    omega
  have hval : (sliceL text a b).get ⟨i - a, hlen⟩ = text.getD i ' ' := by
    simp only [sliceL, List.get_eq_getElem]
    rw [List.getElem_take, List.getElem_drop]
    rw [List.getD_eq_getElem text ' ' h3]
    congr 1
    omega
  rw [← hval]
  exact List.get_mem _ _ _

/-- C6 amended: with a positive chunk size and a split that ends before the
MAX_CHUNKS cap, no non-whitespace character of a non-empty input is lost —
it appears in some returned chunk.  (Whitespace at a chunk's edges may be
dropped by the per-chunk trim, and text beyond the cap is dropped; see the
counterexample.) -/
theorem C6_amended_no_nonwhite_loss :
    ∀ (text : List Char) (chunkSize overlap : Nat), text ≠ [] → 1 ≤ chunkSize →
      (splitIntoChunks text chunkSize overlap).length < MAX_CHUNKS →
      ∀ i, i < text.length → isJsWhite (text.getD i ' ') = false →
        ∃ chunk ∈ splitIntoChunks text chunkSize overlap, text.getD i ' ' ∈ chunk := by
  intro text chunkSize overlap hne hcs hcap i hi hwhite
  unfold splitIntoChunks at hcap ⊢
  by_cases h0 : text.length = 0
  · exact absurd (List.length_eq_zero.mp h0) hne
  rw [if_neg h0] at hcap ⊢
  by_cases h1 : text.length ≤ chunkSize
  · rw [if_pos h1] at hcap ⊢
    refine ⟨text, by simp, ?_⟩
    rw [List.getD_eq_getElem text ' ' hi]
    exact List.getElem_mem hi
  rw [if_neg h1] at hcap ⊢
  have heq : splitLoop text chunkSize overlap text.length 0 [] =
      (splitWindows text chunkSize overlap text.length 0 []).map (renderWindow text) := by
    simpa using splitLoop_eq_windows text chunkSize overlap text.length 0 []
  rw [heq] at hcap ⊢
  rw [List.length_map] at hcap
  obtain ⟨w, hwmem, hw1, hw2⟩ := splitWindows_coverage text chunkSize overlap hcs
    text.length 0 [] (by omega) hcap i (Nat.zero_le i) hi
  refine ⟨renderWindow text w, List.mem_map_of_mem _ hwmem, ?_⟩
  exact mem_trimL_of_not_white hwhite (mem_sliceL hw1 hw2 hi)

/-- A text one character longer than what 100 one-character windows can
cover: the final X exceeds the MAX_CHUNKS cap. -/
def lostTailText : List Char := List.replicate 100 'a' ++ ['X']

set_option maxRecDepth 40000 in
/-- C6 counterexample: the claim quantifies over every non-empty text and
every chunkSize/overlapSize, but with chunkSize 1 a 101-character text hits
the 100-chunk cap and its final character X appears in no returned chunk —
no concatenation of the chunks (however overlaps are removed) can cover
the input. -/
theorem C6_counterexample :
    'X' ∈ lostTailText ∧
      ∀ chunk ∈ splitIntoChunks lostTailText 1 0, 'X' ∉ chunk := by
  constructor
  · simp [lostTailText]
  · decide

/-- Witness for the amended C6 at a concrete input: the non-whitespace
character at position 2 of "abc" (split with chunkSize 2) survives into a
chunk. -/
theorem C6_amended_witness :
    ∃ chunk ∈ splitIntoChunks ['a', 'b', 'c'] 2 0, (['a', 'b', 'c'].getD 2 ' ') ∈ chunk :=
  C6_amended_no_nonwhite_loss ['a', 'b', 'c'] 2 0 (by decide) (by decide) (by decide) 2
    (by decide) (by decide)

-- ════════════════════════════════════════════════════════════
-- DIFF CLASSIFICATION LEMMAS
-- ════════════════════════════════════════════════════════════

/-- The patch the library produces is never empty: it always begins with
the ruler header line. -/
lemma createTwoFilesPatch_ne_nil (oldFile newFile : String) (oldText newText : List Char)
    (oldHeader newHeader : String) :
    createTwoFilesPatch oldFile newFile oldText newText oldHeader newHeader ≠ [] := by
  unfold createTwoFilesPatch
  intro h
  simp only [List.append_assoc, List.append_eq_nil] at h
  exact absurd h.1 (by decide)

/-- C2: reaching line-level classification (a push whose texts hash
differently), a changed-line ratio at or below the 0.3 threshold — the
boundary included — yields small_diff carrying the (non-empty) unified
patch, and a ratio strictly above the threshold yields large_diff, which
carries no patch field at all. -/
theorem C2_diff_classification :
    ∀ (oldText newText : List Char) (oldChunks newChunks : List (List Char)),
      countTotal (diffLines oldText newText) ≠ 0 →
      (10 * countChanged (diffLines oldText newText) ≤
          3 * countTotal (diffLines oldText newText) →
        computeDiff oldText newText oldChunks newChunks =
          DiffResult.small_diff
            (createTwoFilesPatch "previous" "current" oldText newText "" "")
            (countChanged (diffLines oldText newText))
            (countTotal (diffLines oldText newText))
            (changedChunksOf oldChunks newChunks) ∧
          createTwoFilesPatch "previous" "current" oldText newText "" "" ≠ []) ∧
      (10 * countChanged (diffLines oldText newText) >
          3 * countTotal (diffLines oldText newText) →
        computeDiff oldText newText oldChunks newChunks =
          DiffResult.large_diff
            (countChanged (diffLines oldText newText))
            (countTotal (diffLines oldText newText))
            (changedChunksOf oldChunks newChunks)) := by
  intro oldText newText oldChunks newChunks ht
  constructor
  · intro hle
    refine ⟨?_, createTwoFilesPatch_ne_nil _ _ _ _ _ _⟩
    unfold computeDiff
    rw [if_neg ht, if_neg (by omega)]
  · intro hgt
    unfold computeDiff
    rw [if_neg ht, if_pos hgt]

/-- Concrete boundary texts: 7 common lines, 2 removed, 1 added — 3 of 10
lines changed, a ratio of exactly the 0.3 threshold. -/
def boundaryOld : List Char := ("1\n2\n3\n4\n5\n6\n7\nx\ny").toList

/-- The new side of the boundary pair. -/
def boundaryNew : List Char := ("1\n2\n3\n4\n5\n6\n7\nz").toList

/-- Witness for C2 at the exact threshold: the boundary pair is classified
small_diff with its non-empty patch. -/
theorem C2_witness :
    computeDiff boundaryOld boundaryNew [] [] =
      DiffResult.small_diff
        (createTwoFilesPatch "previous" "current" boundaryOld boundaryNew "" "") 3 10 [] ∧
      createTwoFilesPatch "previous" "current" boundaryOld boundaryNew "" "" ≠ [] := by
  have h := (C2_diff_classification boundaryOld boundaryNew [] [] (by decide)).1 (by decide)
  have h3 : countChanged (diffLines boundaryOld boundaryNew) = 3 := by decide
  have h10 : countTotal (diffLines boundaryOld boundaryNew) = 10 := by decide
  have hcc : changedChunksOf ([] : List (List Char)) [] = [] := by decide
  rw [h3, h10, hcc] at h
  exact h

-- ════════════════════════════════════════════════════════════
-- PUSH PRECEDENCE (C1)
-- ════════════════════════════════════════════════════════════

lemma foldl_add_shift (g : Change → Nat) : ∀ (cs : List Change) (n : Nat),
    List.foldl (fun acc c => acc + g c) n cs =
      n + List.foldl (fun acc c => acc + g c) 0 cs := by
  intro cs
  induction cs with
  | nil => intro n; simp
  | cons d ds ih =>
    intro n
    rw [List.foldl_cons, List.foldl_cons, ih (n + g d), ih (0 + g d)]
    omega

lemma countTotal_cons (c : Change) (cs : List Change) :
    countTotal (c :: cs) = c.count.getD 0 + countTotal cs := by
  unfold countTotal
  rw [List.foldl_cons, foldl_add_shift (fun c => c.count.getD 0) cs (0 + c.count.getD 0),
    Nat.zero_add]

lemma countTotal_map_one {β : Type} (f : β → List Char) (p q : Bool) (l : List β) :
    countTotal (l.map (fun x => ⟨some 1, f x, p, q⟩)) = l.length := by
  induction l with
  | nil => rfl
  | cons x xs ih =>
    rw [List.map_cons, countTotal_cons, ih]
    simp [Nat.add_comm]

lemma countTotal_pos (fuel : Nat) :
    ∀ (a b : List (List Char)), a.length + b.length ≤ fuel →
      countTotal (diffChangesF fuel a b) = 0 → a = [] ∧ b = [] := by
  induction fuel with
  | zero =>
    intro a b hab _
    have ha : a.length = 0 := by omega
    have hb : b.length = 0 := by omega
    exact ⟨List.length_eq_zero.mp ha, List.length_eq_zero.mp hb⟩
  | succ n ih =>
    intro a b hab h
    match a, b with
    | [], [] => exact ⟨rfl, rfl⟩
    | [], y :: ys =>
      rw [diffChangesF] at h
      rw [countTotal_map_one] at h
      simp at h
    | x :: xs, [] =>
      rw [diffChangesF] at h
      rw [countTotal_map_one] at h
      simp at h
    | x :: xs, y :: ys =>
      rw [diffChangesF] at h
      split_ifs at h <;> rw [countTotal_cons] at h <;> simp at h

lemma toLinesAux_length_le : ∀ (l acc : List Char),
    (toLinesAux l acc).length ≤ l.length + (if acc = [] then 0 else 1) := by
  intro l
  induction l with
  | nil =>
    intro acc
    by_cases h : acc = [] <;> simp [toLinesAux, h]
  | cons c rest ih =>
    intro acc
    rw [toLinesAux]
    by_cases hc : c = '\n'
    · rw [if_pos hc]
      have h2 := ih []
      simp at h2
      simp only [List.length_cons]
      split_ifs <;> omega
    · rw [if_neg hc]
      have := ih (c :: acc)
      simp only [List.length_cons] at this ⊢
      split_ifs at this ⊢ <;> omega

lemma toLines_length_le (t : List Char) : (toLines t).length ≤ t.length := by
  have := toLinesAux_length_le t []
  simpa [toLines] using this

lemma toLinesAux_ne_nil : ∀ (l acc : List Char), acc ≠ [] ∨ l ≠ [] →
    toLinesAux l acc ≠ [] := by
  intro l
  induction l with
  | nil =>
    intro acc h
    rcases h with h | h
    · simp [toLinesAux, h]
    · exact absurd rfl h
  | cons c rest ih =>
    intro acc _
    rw [toLinesAux]
    by_cases hc : c = '\n'
    · rw [if_pos hc]; simp
    · rw [if_neg hc]
      exact ih (c :: acc) (Or.inl (by simp))

/-- If the stored hash discipline holds and the texts genuinely differ,
the computed diff is small_diff or large_diff (never unchanged: the
totalLines-0 guard only fires when both texts are empty, hence equal). -/
lemma computeDiff_small_or_large {oldText newText : List Char}
    (hne : oldText ≠ newText) (oldChunks newChunks : List (List Char)) :
    (∃ patch c t cc, computeDiff oldText newText oldChunks newChunks =
        DiffResult.small_diff patch c t cc) ∨
      (∃ c t cc, computeDiff oldText newText oldChunks newChunks =
        DiffResult.large_diff c t cc) := by
  have ht : countTotal (diffLines oldText newText) ≠ 0 := by
    intro h0
    have hlenO := toLines_length_le oldText
    have hlenN := toLines_length_le newText
    obtain ⟨ha, hb⟩ := countTotal_pos (oldText.length + newText.length + 1)
      (toLines oldText) (toLines newText) (by omega) h0
    have hO : oldText = [] := by
      by_contra hOne
      exact toLinesAux_ne_nil oldText [] (Or.inr hOne) ha
    have hN : newText = [] := by
      by_contra hNne
      exact toLinesAux_ne_nil newText [] (Or.inr hNne) hb
    exact hne (hO.trans hN.symm)
  by_cases hbig : 10 * countChanged (diffLines oldText newText) >
      3 * countTotal (diffLines oldText newText)
  · right
    refine ⟨countChanged (diffLines oldText newText), countTotal (diffLines oldText newText),
      changedChunksOf oldChunks newChunks, ?_⟩
    unfold computeDiff
    rw [if_neg ht, if_pos hbig]
  · left
    refine ⟨createTwoFilesPatch "previous" "current" oldText newText "" "",
      countChanged (diffLines oldText newText), countTotal (diffLines oldText newText),
      changedChunksOf oldChunks newChunks, ?_⟩
    unfold computeDiff
    rw [if_neg ht, if_neg hbig]

/-- C1: push produces exactly one diff variant by the stated precedence —
missing entry or TTL-stale latest give no_previous with a fresh entry;
otherwise the entry slides latest to previous and the diff is url_changed
on a URL mismatch (regardless of similarity), else unchanged on equal
hashes, else the line-level classification (small_diff or large_diff when
the stored hash obeys the hash discipline). -/
theorem C1_push_precedence :
    ∀ (tabs : Tabs) (now tabId : Nat) (content : Content),
      (push tabs now tabId content).snapshot = mkSnapshot now content ∧
      ((tabs tabId = none ∨
          ∃ e, tabs tabId = some e ∧ now - e.latest.updatedAt > TTL_MS) →
        (push tabs now tabId content).diff = DiffResult.no_previous ∧
        (push tabs now tabId content).tabs tabId = some ⟨mkSnapshot now content, none⟩) ∧
      (∀ e, tabs tabId = some e → now - e.latest.updatedAt ≤ TTL_MS →
        (push tabs now tabId content).tabs tabId =
          some ⟨mkSnapshot now content, some e.latest⟩ ∧
        (e.latest.url ≠ content.url →
          (push tabs now tabId content).diff =
            DiffResult.url_changed e.latest.url content.url) ∧
        (e.latest.url = content.url → e.latest.hash = (mkSnapshot now content).hash →
          (push tabs now tabId content).diff = DiffResult.unchanged) ∧
        (e.latest.url = content.url → e.latest.hash ≠ (mkSnapshot now content).hash →
          (push tabs now tabId content).diff =
            computeDiff e.latest.markdown content.markdown e.latest.chunks
              (splitIntoChunks content.markdown) ∧
          (e.latest.hash = toString36 (hashContent e.latest.markdown) →
            (∃ patch c t cc, (push tabs now tabId content).diff =
                DiffResult.small_diff patch c t cc) ∨
              (∃ c t cc, (push tabs now tabId content).diff =
                DiffResult.large_diff c t cc)))) := by
  intro tabs now tabId content
  rcases hle : tabs tabId with _ | e
  · refine ⟨by simp [push, hle], fun _ => by simp [push, hle, saveTab], ?_⟩
    intro e he
    cases he
  · by_cases hstale : now - e.latest.updatedAt > TTL_MS
    · refine ⟨?_, fun _ => ?_, ?_⟩
      · simp only [push, hle]
        rw [if_pos hstale]
      · constructor
        · simp only [push, hle]
          rw [if_pos hstale]
        · simp only [push, hle]
          rw [if_pos hstale]
          simp [saveTab]
      · intro e2 he2 hfresh
        cases he2
        omega
    · refine ⟨?_, ?_, ?_⟩
      · simp only [push, hle]
        rw [if_neg hstale]
        split_ifs <;> rfl
      · intro hor
        rcases hor with h | ⟨e2, he2, hstale2⟩
        · cases h
        · cases he2
          omega
      · intro e2 he2 _
        cases he2
        refine ⟨?_, ?_, ?_, ?_⟩
        · simp only [push, hle]
          rw [if_neg hstale]
          split_ifs <;> simp [saveTab]
        · intro hurl
          simp only [push, hle]
          rw [if_neg hstale, if_pos hurl]
        · intro hurl hhash
          simp only [push, hle]
          rw [if_neg hstale, if_neg (by simpa using hurl), if_pos hhash]
        · intro hurl hhash
          have hdiff : (push tabs now tabId content).diff =
              computeDiff e.latest.markdown content.markdown e.latest.chunks
                (splitIntoChunks content.markdown) := by
            simp only [push, hle]
            rw [if_neg hstale, if_neg (by simpa using hurl), if_neg hhash]
            rfl
          refine ⟨hdiff, ?_⟩
          intro hwf
          have hmark : e.latest.markdown ≠ content.markdown := by
            intro hm
            apply hhash
            rw [hwf, hm]
            rfl
          rw [hdiff]
          exact computeDiff_small_or_large hmark _ _

/-- An empty store. -/
def emptyTabs : Tabs := fun _ => none

/-- A concrete content payload. -/
def sampleContent : Content := ⟨"https://a.example", "T", ("hello world").toList, none⟩

/-- Witness for C1: pushing into an empty store yields no_previous and a
fresh entry with a null previous slot. -/
theorem C1_witness :
    (push emptyTabs 1000 7 sampleContent).diff = DiffResult.no_previous ∧
      (push emptyTabs 1000 7 sampleContent).tabs 7 =
        some ⟨mkSnapshot 1000 sampleContent, none⟩ :=
  (C1_push_precedence emptyTabs 1000 7 sampleContent).2.1 (Or.inl rfl)

-- ════════════════════════════════════════════════════════════
-- STORE READ OPERATIONS (C9, C10)
-- ════════════════════════════════════════════════════════════

/-- C9: getChunks is total — a missing tab entry or missing snapshot give
the empty list; otherwise the result is exactly the requested in-range
indices (negative and out-of-range indices silently filtered, never an
error), each paired with that snapshot's chunk content at the index. -/
theorem C9_getChunks_total :
    ∀ (tabs : Tabs) (tabId : Nat) (source : Source) (indices : List Int),
      (tabs tabId = none → getChunks tabs tabId source indices = []) ∧
      (∀ entry, tabs tabId = some entry → snapOf entry source = none →
        getChunks tabs tabId source indices = []) ∧
      (∀ entry snapshot, tabs tabId = some entry → snapOf entry source = some snapshot →
        getChunks tabs tabId source indices =
          (indices.filter
            (fun i => decide (0 ≤ i ∧ i < (snapshot.chunks.length : Int)))).map
            (fun i => (i, snapshot.chunks.getD i.toNat [])) ∧
        ∀ i content, (i, content) ∈ getChunks tabs tabId source indices ↔
          (i ∈ indices ∧ 0 ≤ i ∧ i < (snapshot.chunks.length : Int) ∧
            content = snapshot.chunks.getD i.toNat [])) := by
  intro tabs tabId source indices
  refine ⟨?_, ?_, ?_⟩
  · intro h
    simp [getChunks, h]
  · intro entry he hs
    simp [getChunks, he, hs]
  · intro entry snapshot he hs
    have heq : getChunks tabs tabId source indices =
        (indices.filter
          (fun i => decide (0 ≤ i ∧ i < (snapshot.chunks.length : Int)))).map
          (fun i => (i, snapshot.chunks.getD i.toNat [])) := by
      simp [getChunks, he, hs]
    refine ⟨heq, ?_⟩
    intro i content
    rw [heq]
    simp only [List.mem_map, List.mem_filter]
    constructor
    · rintro ⟨j, ⟨hj, hcond⟩, heqpair⟩
      rw [Prod.mk.injEq] at heqpair
      obtain ⟨rfl, hcontent⟩ := heqpair
      simp only [decide_eq_true_eq] at hcond
      exact ⟨hj, hcond.1, hcond.2, hcontent.symm⟩
    · rintro ⟨hi, h0, hlt, rfl⟩
      exact ⟨i, ⟨hi, by simp [h0, hlt]⟩, rfl⟩

/-- A two-chunk snapshot used by concrete store witnesses. -/
def sampleSnap : Snapshot :=
  { url := "u", title := "t", markdown := ("ab").toList, chunks := [['a'], ['b']]
    hash := [], updatedAt := 0, editorContents := none }

/-- A store holding sampleSnap under tab 3. -/
def sampleTabs : Tabs := fun t => if t = 3 then some ⟨sampleSnap, none⟩ else none

/-- Witness for C9: a request mixing a negative, two in-range and one
out-of-range index returns exactly the in-range pairs. -/
theorem C9_witness :
    getChunks sampleTabs 3 Source.latest [-1, 0, 5, 1] = [(0, ['a']), (1, ['b'])] := by
  have h := ((C9_getChunks_total sampleTabs 3 Source.latest [-1, 0, 5, 1]).2.2
    ⟨sampleSnap, none⟩ sampleSnap rfl rfl).1
  rw [h]
  decide

lemma mem_setKey_fst {obj : List (String × List Char)} {key k : String} {v : List Char}
    (h : k ∈ (setKey obj key v).map Prod.fst) : k ∈ obj.map Prod.fst ∨ k = key := by
  unfold setKey at h
  split_ifs at h with hmem
  · rw [List.map_map] at h
    simp only [List.mem_map, Function.comp] at h
    obtain ⟨p, hp, hk⟩ := h
    by_cases hpk : p.1 = key
    · rw [if_pos hpk] at hk
      exact Or.inr hk.symm
    · rw [if_neg hpk] at hk
      exact Or.inl (List.mem_map.mpr ⟨p, hp, hk⟩)
  · rw [List.map_append] at h
    rcases List.mem_append.mp h with h | h
    · exact Or.inl h
    · exact Or.inr (by simpa using h)

lemma readEditable_omits {tabs : Tabs} {tabId : Nat} {source : Source} {key : String}
    (hnone : getEditorContent tabs tabId source key = none) :
    ∀ (keys : List String) (acc : List (String × List Char)),
      key ∉ acc.map Prod.fst →
      key ∉ (keys.foldl (fun acc key =>
        match getEditorContent tabs tabId source key with
        | none => acc
        | some c => setKey acc key c) acc).map Prod.fst := by
  intro keys
  induction keys with
  | nil => intro acc h; simpa using h
  | cons k ks ih =>
    intro acc hacc
    rw [List.foldl_cons]
    rcases hk : getEditorContent tabs tabId source k with _ | c
    · exact ih acc hacc
    · refine ih (setKey acc k c) ?_
      intro hmem
      rcases mem_setKey_fst hmem with h | h
      · exact hacc h
      · subst h
        rw [hnone] at hk
        cases hk

/-- C10: getEditorContent returns none not only for a missing tab entry,
snapshot, editor map or key, but also when the stored editor text is the
empty string (the `|| null` coalescing makes an existing-but-empty editor
indistinguishable from a missing one), and the read_editable_content
dispatch therefore omits such keys from its result object. -/
theorem C10_empty_editor_as_missing :
    ∀ (tabs : Tabs) (tabId : Nat) (source : Source) (key : String),
      (tabs tabId = none → getEditorContent tabs tabId source key = none) ∧
      (∀ entry, tabs tabId = some entry → snapOf entry source = none →
        getEditorContent tabs tabId source key = none) ∧
      (∀ entry snapshot, tabs tabId = some entry → snapOf entry source = some snapshot →
        snapshot.editorContents = none →
        getEditorContent tabs tabId source key = none) ∧
      (∀ entry snapshot m, tabs tabId = some entry → snapOf entry source = some snapshot →
        snapshot.editorContents = some m → m key = none →
        getEditorContent tabs tabId source key = none) ∧
      (∀ entry snapshot m e, tabs tabId = some entry → snapOf entry source = some snapshot →
        snapshot.editorContents = some m → m key = some e → e.code = [] →
        getEditorContent tabs tabId source key = none) ∧
      (getEditorContent tabs tabId source key = none →
        ∀ keys, key ∉ (readEditableResult tabs tabId source keys).map Prod.fst) := by
  intro tabs tabId source key
  refine ⟨?_, ?_, ?_, ?_, ?_, ?_⟩
  · intro h
    simp [getEditorContent, h]
  · intro entry he hs
    simp [getEditorContent, he, hs]
  · intro entry snapshot he hs hm
    simp [getEditorContent, he, hs, hm]
  · intro entry snapshot m he hs hm hk
    simp [getEditorContent, he, hs, hm, hk]
  · intro entry snapshot m e he hs hm hk hc
    simp [getEditorContent, he, hs, hm, hk, hc]
  · intro h keys
    exact readEditable_omits h keys [] (by simp)

/-- An editor map with one empty and one non-empty editor. -/
def sampleEditorMap : EditorMap := fun k =>
  if k = "monaco_1" then some ⟨"Editor", []⟩
  else if k = "monaco_2" then some ⟨"Editor", ['x']⟩
  else none

/-- A snapshot carrying sampleEditorMap. -/
def sampleSnapE : Snapshot :=
  { url := "u", title := "t", markdown := [], chunks := [], hash := []
    updatedAt := 0, editorContents := some sampleEditorMap }

/-- A store holding sampleSnapE under tab 4. -/
def sampleTabsE : Tabs := fun t => if t = 4 then some ⟨sampleSnapE, none⟩ else none

/-- Witness for C10: the existing-but-empty editor monaco_1 reads as
absent and is omitted from the read_editable_content result object. -/
theorem C10_witness :
    getEditorContent sampleTabsE 4 Source.latest "monaco_1" = none ∧
      "monaco_1" ∉
        (readEditableResult sampleTabsE 4 Source.latest ["monaco_1", "monaco_2"]).map
          Prod.fst := by
  have hthm := C10_empty_editor_as_missing sampleTabsE 4 Source.latest "monaco_1"
  have h5 := hthm.2.2.2.2.1 ⟨sampleSnapE, none⟩ sampleSnapE sampleEditorMap
    ⟨"Editor", []⟩ rfl rfl rfl rfl rfl
  exact ⟨h5, hthm.2.2.2.2.2 h5 ["monaco_1", "monaco_2"]⟩

-- ════════════════════════════════════════════════════════════
-- INFERENCE CLIENT RETRY POLICY (C4)
-- ════════════════════════════════════════════════════════════

/-- C4: on HTTP 429 the client parses a retry-after hint (default wait 2s
when absent); a wait within the 20s ceiling sleeps that long and retries
the same endpoint — exactly one retry when the next attempt succeeds — a
wait over the ceiling abandons the endpoint without sleeping and fails
over to the next endpoint, and any other non-retriable 4xx status is
terminal for the endpoint after a single fetch. -/
theorem C4_rate_limit_policy :
    (∀ (modelId ep : String) (f : Nat → FetchOutcome) (body : List Char) (n : Nat),
      parseRetryAfter body = some n → n + 1 ≤ 20 →
      f 1 = FetchOutcome.httpError 429 body → f 2 = FetchOutcome.ok →
      runEndpoint modelId ep f MAX_RETRIES 0 none =
        ([Action.fetchReq ep, Action.sleep ((n + 1) * 1000), Action.fetchReq ep],
          EndpointResult.success)) ∧
    (∀ (modelId ep : String) (f : Nat → FetchOutcome) (body : List Char),
      parseRetryAfter body = none →
      f 1 = FetchOutcome.httpError 429 body → f 2 = FetchOutcome.ok →
      runEndpoint modelId ep f MAX_RETRIES 0 none =
        ([Action.fetchReq ep, Action.sleep (2 * 1000), Action.fetchReq ep],
          EndpointResult.success)) ∧
    (∀ (modelId e1 e2 : String) (outcomes : String → Nat → FetchOutcome)
      (body : List Char) (n : Nat),
      parseRetryAfter body = some n → n + 1 > 20 →
      outcomes e1 1 = FetchOutcome.httpError 429 body → outcomes e2 1 = FetchOutcome.ok →
      executeRequest modelId [e1, e2] outcomes =
        ([Action.fetchReq e1, Action.fetchReq e2], Except.ok ())) ∧
    (∀ (modelId ep : String) (f : Nat → FetchOutcome) (body : List Char) (status : Nat),
      400 ≤ status → status < 500 → status ≠ 429 →
      f 1 = FetchOutcome.httpError status body →
      runEndpoint modelId ep f MAX_RETRIES 0 none =
        ([Action.fetchReq ep],
          EndpointResult.given_up (some (apiErrorMsg modelId status body)))) := by
  refine ⟨?_, ?_, ?_, ?_⟩
  · intro modelId ep f body n hp hceil h1 h2
    rw [show MAX_RETRIES = 2 + 1 from rfl, runEndpoint]
    simp only [Nat.zero_add, h1, hp, if_true]
    rw [if_pos hceil]
    rw [show (2 : Nat) = 1 + 1 from rfl, runEndpoint]
    simp only [show (1 : Nat) + 1 = 2 from rfl, h2]
  · intro modelId ep f body hp h1 h2
    rw [show MAX_RETRIES = 2 + 1 from rfl, runEndpoint]
    simp only [Nat.zero_add, h1, hp, if_true]
    rw [if_pos (by norm_num)]
    rw [show (2 : Nat) = 1 + 1 from rfl, runEndpoint]
    simp only [show (1 : Nat) + 1 = 2 from rfl, h2]
  · intro modelId e1 e2 outcomes body n hp hceil h1 h2
    have hrun1 : runEndpoint modelId e1 (outcomes e1) MAX_RETRIES 0 none =
        ([Action.fetchReq e1], EndpointResult.given_up (some (rateLimitMsg body))) := by
      rw [show MAX_RETRIES = 2 + 1 from rfl, runEndpoint]
      simp only [Nat.zero_add, h1, hp, if_true]
      rw [if_neg (show ¬(n + 1 ≤ 20) by omega)]
    have hrun2 : runEndpoint modelId e2 (outcomes e2) MAX_RETRIES 0 none =
        ([Action.fetchReq e2], EndpointResult.success) := by
      rw [show MAX_RETRIES = 2 + 1 from rfl, runEndpoint]
      simp only [Nat.zero_add, h2]
    show executeRequestGo modelId outcomes [e1, e2] = _
    rw [executeRequestGo, hrun1]
    rw [executeRequestGo, hrun2]
    rfl
  · intro modelId ep f body status h400 h500 h429 h1
    rw [show MAX_RETRIES = 2 + 1 from rfl, runEndpoint]
    simp only [Nat.zero_add, h1]
    rw [if_neg h429, if_neg (by omega)]

/-- A rate-limit body carrying the hint "after 5s". -/
def cex429Body : List Char := ("Quota exhausted for this minute, retry after 5s.").toList

/-- Fetch outcomes: one 429 with the 5s hint, then success. -/
def cex429Stream : Nat → FetchOutcome := fun a =>
  if a = 1 then FetchOutcome.httpError 429 cex429Body else FetchOutcome.ok

/-- Witness for C4: the 5s hint (plus the 1s buffer) sleeps 6000ms and the
same endpoint is fetched exactly twice before succeeding. -/
theorem C4_witness :
    runEndpoint "gemini-2.5-flash" "ep" cex429Stream MAX_RETRIES 0 none =
      ([Action.fetchReq "ep", Action.sleep 6000, Action.fetchReq "ep"],
        EndpointResult.success) := by
  have h := C4_rate_limit_policy.1 "gemini-2.5-flash" "ep" cex429Stream cex429Body 5
    (by decide) (by decide) rfl rfl
  simpa using h

-- ════════════════════════════════════════════════════════════
-- ORCHESTRATOR LEMMAS (C3, C5, C8)
-- ════════════════════════════════════════════════════════════

/-- Classifier: a caller-facing usage event. -/
def usageEvent : OutEvent → Bool
  | OutEvent.chunk c => c.usage.isSome
  | _ => false

/-- Classifier: a caller-facing (truthy) finish-reason event. -/
def finishEvent : OutEvent → Bool
  | OutEvent.chunk c => isTruthyStr c.finishReason
  | _ => false

lemma streamStep_uiEvents (st : RoundState) (c : StreamChunk) :
    (streamStep st c).uiEvents = st.uiEvents ∨
      ((streamStep st c).uiEvents = st.uiEvents ++ [OutEvent.chunk (uiOf c)] ∧
        c.usage.isSome = false ∧ isTruthyStr c.finishReason = false) := by
  unfold streamStep
  by_cases hfc : c.functionCall.isSome <;>
    by_cases hfin : isTruthyStr c.finishReason <;>
      by_cases hus : c.usage.isSome <;>
        rcases hr : c.rawPart with _ | p <;>
          simp [hfc, hfin, hus]

lemma processStream_clean (chunks : List StreamChunk) :
    (processStream chunks).uiEvents.filter usageEvent = [] ∧
      (processStream chunks).uiEvents.filter finishEvent = [] := by
  unfold processStream
  have hbase1 : (⟨[], none, none, []⟩ : RoundState).uiEvents.filter usageEvent = [] := rfl
  have hbase2 : (⟨[], none, none, []⟩ : RoundState).uiEvents.filter finishEvent = [] := rfl
  generalize (⟨[], none, none, []⟩ : RoundState) = st at hbase1 hbase2 ⊢
  induction chunks generalizing st with
  | nil => exact ⟨hbase1, hbase2⟩
  | cons c cs ih =>
    rw [List.foldl_cons]
    apply ih
    · rcases streamStep_uiEvents st c with h | ⟨h, hu, _⟩
      · rw [h]; exact hbase1
      · rw [h, List.filter_append, hbase1]
        simp [usageEvent, uiOf, hu]
    · rcases streamStep_uiEvents st c with h | ⟨h, _, hf⟩
      · rw [h]; exact hbase2
      · rw [h, List.filter_append, hbase2]
        simp [finishEvent, uiOf, hf]

lemma execToolCall_events_clean (env : ToolEnv) (round : Nat) (fc : FunctionCall) :
    (execToolCall env round fc).1.filter usageEvent = [] ∧
      (execToolCall env round fc).1.filter finishEvent = [] := by
  rcases h : execToolCallCore env fc with e | r <;>
    simp [execToolCall, h, usageEvent, finishEvent]

lemma toolEvents_clean (env : ToolEnv) (round : Nat) :
    ∀ (fcs : List FunctionCall),
      ((fcs.map (execToolCall env round)).flatMap Prod.fst).filter usageEvent = [] ∧
        ((fcs.map (execToolCall env round)).flatMap Prod.fst).filter finishEvent = [] := by
  intro fcs
  induction fcs with
  | nil => exact ⟨rfl, rfl⟩
  | cons fc rest ih =>
    rw [List.map_cons, List.flatMap_cons]
    rw [List.filter_append, List.filter_append]
    obtain ⟨h1, h2⟩ := execToolCall_events_clean env round fc
    rw [h1, h2, ih.1, ih.2]
    exact ⟨rfl, rfl⟩

lemma flushHeld_counts (f : Option String) (u : Option Usage) :
    ((flushHeld f u).filter usageEvent).length = (if u.isSome then 1 else 0) ∧
      ((flushHeld f u).filter finishEvent).length = (if isTruthyStr f then 1 else 0) := by
  unfold flushHeld
  by_cases hf : isTruthyStr f <;> by_cases hu : u.isSome
  all_goals simp [hf, hu, usageEvent, finishEvent]
  all_goals decide

/-- C5: a round whose accumulated model parts hold no tool call ends the
loop at once — the held finish reason then usage are appended exactly once
after all of that round's forwarded chunk events, the conversation is left
as is, the turn closes with a non-aborted done — and no usage or truthy
finish-reason event is ever emitted from the streaming or tool phase of
any round, so these metrics surface only through a terminal round's
flush. -/
theorem C5_terminal_round_flush :
    ∀ (env : ToolEnv) (stream : Nat → List StreamChunk) (conversation : List ChatMessage)
      (roundsLeft round : Nat),
      partFCs (processStream (stream round)).modelParts = [] →
      (agenticRun env stream (roundsLeft + 1) round conversation =
        ((processStream (stream round)).uiEvents ++
          flushHeld (processStream (stream round)).heldFinishReason
            (processStream (stream round)).heldUsage, conversation)) ∧
      (((agenticRun env stream (roundsLeft + 1) round conversation).1.filter
          usageEvent).length =
        (if (processStream (stream round)).heldUsage.isSome then 1 else 0)) ∧
      (((agenticRun env stream (roundsLeft + 1) round conversation).1.filter
          finishEvent).length =
        (if isTruthyStr (processStream (stream round)).heldFinishReason then 1 else 0)) ∧
      (partFCs (processStream (stream 0)).modelParts = [] →
        chatTurn env stream conversation =
          (processStream (stream 0)).uiEvents ++
            flushHeld (processStream (stream 0)).heldFinishReason
              (processStream (stream 0)).heldUsage ++ [OutEvent.done false]) ∧
      (∀ (env2 : ToolEnv) (round2 : Nat) (chunks : List StreamChunk),
        (((processStream chunks).uiEvents ++
          ((partFCs (processStream chunks).modelParts).map
            (execToolCall env2 round2)).flatMap Prod.fst).filter usageEvent = []) ∧
        (((processStream chunks).uiEvents ++
          ((partFCs (processStream chunks).modelParts).map
            (execToolCall env2 round2)).flatMap Prod.fst).filter finishEvent = [])) := by
  intro env stream conversation roundsLeft round hterm
  have hstep : ∀ (rl rd : Nat) (conv : List ChatMessage),
      partFCs (processStream (stream rd)).modelParts = [] →
      agenticRun env stream (rl + 1) rd conv =
        ((processStream (stream rd)).uiEvents ++
          flushHeld (processStream (stream rd)).heldFinishReason
            (processStream (stream rd)).heldUsage, conv) := by
    intro rl rd conv h
    rw [agenticRun]
    rw [if_pos (by rw [h]; rfl)]
  have heq := hstep roundsLeft round conversation hterm
  refine ⟨heq, ?_, ?_, ?_, ?_⟩
  · rw [heq]
    simp only [List.filter_append, List.length_append]
    rw [(processStream_clean (stream round)).1, (flushHeld_counts _ _).1]
    simp
  · rw [heq]
    simp only [List.filter_append, List.length_append]
    rw [(processStream_clean (stream round)).2, (flushHeld_counts _ _).2]
    simp
  · intro h0
    unfold chatTurn
    rw [show MAX_TOOL_ROUNDS = 49 + 1 from rfl, hstep 49 0 conversation h0]
  · intro env2 round2 chunks
    rw [List.filter_append, List.filter_append]
    rw [(processStream_clean chunks).1, (processStream_clean chunks).2,
      (toolEvents_clean env2 round2 _).1, (toolEvents_clean env2 round2 _).2]
    exact ⟨rfl, rfl⟩

/-- A tool environment whose store holds sampleSnap for the active tab 3. -/
def cexEnvTab : ToolEnv := ⟨sampleTabs, some 3, fun _ _ _ _ => ⟨false, none⟩⟩

/-- A stream whose single round yields text, then a finish reason, then
usage, and no tool call. -/
def cexTerminalStream : Nat → List StreamChunk := fun _ =>
  [{ text := some "Hello" }, { finishReason := some "STOP" }, { usage := some ⟨3, 5, 8⟩ }]

/-- Witness for C5: the zero-tool-call round forwards its text event and
then flushes the held finish reason and usage, in that order, and stops. -/
theorem C5_witness :
    agenticRun cexEnvTab cexTerminalStream (49 + 1) 0 [] =
      ([OutEvent.chunk { text := some "Hello" },
        OutEvent.chunk { finishReason := some "STOP" },
        OutEvent.chunk { usage := some ⟨3, 5, 8⟩ }], []) := by
  have h := (C5_terminal_round_flush cexEnvTab cexTerminalStream [] 49 0 (by decide)).1
  rw [h]
  rfl

/-- The function call of the held-metrics counterexample round. -/
def cexFC : FunctionCall := ⟨"read_page_chunks", ⟨none, some [0], none, none, none, none⟩⟩

/-- A stream whose round 0 yields usage and then a tool call, and whose
later rounds yield nothing. -/
def cexDropStream : Nat → List StreamChunk := fun r =>
  if r = 0 then
    [{ usage := some ⟨3, 5, 8⟩ },
     { functionCall := some cexFC, rawPart := some (Part.functionCall cexFC) }]
  else []

/-- An environment with no active tab, so the dispatched tool call fails
(and is converted to a structured failure, not an abort). -/
def cexEnvNoTab : ToolEnv := ⟨fun _ => none, none, fun _ _ _ _ => ⟨false, none⟩⟩

/-- C3 counterexample: round 0 receives and holds usage but ends with a
pending tool call.  The whole turn's output is just the non-aborted done
signal — the held usage is silently dropped: no usage event, no error
event and no cancellation ever reaches the caller. -/
theorem C3_counterexample :
    (processStream (cexDropStream 0)).heldUsage = some ⟨3, 5, 8⟩ ∧
      chatTurn cexEnvNoTab cexDropStream [] = [OutEvent.done false] := by
  constructor
  · rfl
  · rfl

/-- C3 amended: a round's held finish-reason/usage reach the caller only
when that round ends with no tool-call part; when every round up to the
bound ends with tool calls — including the final round at the max-rounds
exit — the held values are silently discarded, while the turn still
closes with a non-aborted done event. -/
theorem C3_amended_held_metrics :
    (∀ (env : ToolEnv) (stream : Nat → List StreamChunk),
      (∀ r, partFCs (processStream (stream r)).modelParts ≠ []) →
      ∀ (roundsLeft round : Nat) (conversation : List ChatMessage),
        (agenticRun env stream roundsLeft round conversation).1.filter usageEvent = [] ∧
        (agenticRun env stream roundsLeft round conversation).1.filter finishEvent = []) ∧
    (∀ (env : ToolEnv) (stream : Nat → List StreamChunk)
      (conversation : List ChatMessage),
      (chatTurn env stream conversation).getLast? = some (OutEvent.done false)) := by
  constructor
  · intro env stream h roundsLeft
    induction roundsLeft with
    | zero => intro round conversation; exact ⟨rfl, rfl⟩
    | succ n ih =>
      intro round conversation
      rw [agenticRun]
      rw [if_neg (by simp [List.isEmpty_iff, h round])]
      constructor
      · simp only [List.filter_append]
        rw [(processStream_clean (stream round)).1,
          (toolEvents_clean env round _).1, (ih (round + 1) _).1]
        rfl
      · simp only [List.filter_append]
        rw [(processStream_clean (stream round)).2,
          (toolEvents_clean env round _).2, (ih (round + 1) _).2]
        rfl
  · intro env stream conversation
    exact List.getLast?_concat _

/-- A stream every round of which carries a tool call. -/
def cexAllToolStream : Nat → List StreamChunk := fun _ =>
  [{ usage := some ⟨3, 5, 8⟩ },
   { functionCall := some cexFC, rawPart := some (Part.functionCall cexFC) }]

/-- Witness for the amended C3: with a tool call in every round (the run
exits at the max-rounds bound), no usage or finish-reason event is emitted
and the turn ends with a plain done. -/
theorem C3_amended_witness :
    ((agenticRun cexEnvNoTab cexAllToolStream MAX_TOOL_ROUNDS 0 []).1.filter
        usageEvent = [] ∧
      (agenticRun cexEnvNoTab cexAllToolStream MAX_TOOL_ROUNDS 0 []).1.filter
        finishEvent = []) ∧
      (chatTurn cexEnvNoTab cexAllToolStream []).getLast? = some (OutEvent.done false) :=
  ⟨C3_amended_held_metrics.1 cexEnvNoTab cexAllToolStream
      (fun _ =>
        show partFCs (processStream
            [{ usage := some ⟨3, 5, 8⟩ },
             { functionCall := some cexFC, rawPart := some (Part.functionCall cexFC) }]).modelParts
          ≠ [] by decide)
      MAX_TOOL_ROUNDS 0 [],
    C3_amended_held_metrics.2 cexEnvNoTab cexAllToolStream []⟩

/-- C8: a tool call that raises is caught per call and becomes a
structured failure result; the round still appends the model turn carrying
the round's model-authored parts and then the tool-response turn, the loop
proceeds to the next streaming round, and the chat turn still closes with
a non-aborted done — a tool failure never aborts the turn. -/
theorem C8_tool_error_recovery :
    (∀ (env : ToolEnv) (round : Nat) (fc : FunctionCall) (e : String),
      execToolCallCore env fc = Except.error e →
      execToolCall env round fc =
        ([], Part.functionResponse fc.name (ToolResult.failed e))) ∧
    (∀ (env : ToolEnv) (stream : Nat → List StreamChunk)
      (conversation : List ChatMessage) (roundsLeft round : Nat),
      partFCs (processStream (stream round)).modelParts ≠ [] →
      agenticRun env stream (roundsLeft + 1) round conversation =
        ((processStream (stream round)).uiEvents ++
          ((partFCs (processStream (stream round)).modelParts).map
            (execToolCall env round)).flatMap Prod.fst ++
          (agenticRun env stream roundsLeft (round + 1)
            (conversation ++ [⟨Role.model, (processStream (stream round)).modelParts⟩] ++
              [⟨Role.user, ((partFCs (processStream (stream round)).modelParts).map
                (execToolCall env round)).map Prod.snd⟩])).1,
          (agenticRun env stream roundsLeft (round + 1)
            (conversation ++ [⟨Role.model, (processStream (stream round)).modelParts⟩] ++
              [⟨Role.user, ((partFCs (processStream (stream round)).modelParts).map
                (execToolCall env round)).map Prod.snd⟩])).2)) ∧
    (∀ (env : ToolEnv) (stream : Nat → List StreamChunk)
      (conversation : List ChatMessage),
      (chatTurn env stream conversation).getLast? = some (OutEvent.done false)) := by
  refine ⟨?_, ?_, ?_⟩
  · intro env round fc e h
    simp [execToolCall, h]
  · intro env stream conversation roundsLeft round h
    rw [agenticRun]
    rw [if_neg (by simp [List.isEmpty_iff, h])]
  · intro env stream conversation
    exact List.getLast?_concat _

/-- A call to a tool name the dispatcher does not know. -/
def cexUnknownFC : FunctionCall := ⟨"transmute_page", ⟨none, none, none, none, none, none⟩⟩

/-- A stream whose round 0 carries the unknown tool call and whose round 1
is empty. -/
def cexUnknownStream : Nat → List StreamChunk := fun r =>
  if r = 0 then
    [{ functionCall := some cexUnknownFC, rawPart := some (Part.functionCall cexUnknownFC) }]
  else []

/-- Witness for C8: the unknown tool raises, is converted to the
structured failure response, the loop's next round runs, and the turn
ends with a plain done. -/
theorem C8_witness :
    execToolCall cexEnvTab 0 cexUnknownFC =
      ([], Part.functionResponse "transmute_page"
        (ToolResult.failed "Unknown tool: transmute_page")) ∧
      agenticRun cexEnvTab cexUnknownStream (49 + 1) 0 [] =
        ((processStream (cexUnknownStream 0)).uiEvents ++
          ((partFCs (processStream (cexUnknownStream 0)).modelParts).map
            (execToolCall cexEnvTab 0)).flatMap Prod.fst ++
          (agenticRun cexEnvTab cexUnknownStream 49 1
            ([] ++ [⟨Role.model, (processStream (cexUnknownStream 0)).modelParts⟩] ++
              [⟨Role.user, ((partFCs (processStream (cexUnknownStream 0)).modelParts).map
                (execToolCall cexEnvTab 0)).map Prod.snd⟩])).1,
          (agenticRun cexEnvTab cexUnknownStream 49 1
            ([] ++ [⟨Role.model, (processStream (cexUnknownStream 0)).modelParts⟩] ++
              [⟨Role.user, ((partFCs (processStream (cexUnknownStream 0)).modelParts).map
                (execToolCall cexEnvTab 0)).map Prod.snd⟩])).2) ∧
      (chatTurn cexEnvTab cexUnknownStream []).getLast? = some (OutEvent.done false) :=
  ⟨C8_tool_error_recovery.1 cexEnvTab 0 cexUnknownFC "Unknown tool: transmute_page" rfl,
    C8_tool_error_recovery.2.1 cexEnvTab cexUnknownStream [] 49 0 (by decide),
    C8_tool_error_recovery.2.2 cexEnvTab cexUnknownStream []⟩

end Muse
